import Mathlib

/-!
# zenoh-cpp `serde.hxx`: the typed (de)serialization layer over `Bytes`

A shallow embedding of `include/private/serde.hxx`.

* `Bytes`, `Bytes.BytesReader`, `Bytes.Iterator`, `Bytes.serialize_from_iter`,
  `ZenohCodec.serialize_*` and `ZenohDeserializer.deserialize_*` follow the C++ source
  function by function; template parameters become explicit serializer / deserializer
  arguments.
* The zenoh-c primitives (`z_null`, `z_check`, `z_bytes_*`) are external to the C++ sources and
  the macro `__ZENOH_ERROR_CHECK` lives in `base.hxx`.  They are modelled from the
  specification; each such definition says so in its doc comment.
* A sub-payload is self-delimiting: a base-128 length prefix followed by its octets.  The
  sentinel payload (the gravestone written by `z_null`) is a state of its own, distinct from
  a payload that is present and holds zero octets.
-/

namespace zenoh

/-! ## Payload bytes and the zenoh-c primitives -/

/-- One octet (`uint8_t`). -/
abbrev Byte := Fin 256

/-- Modelled from the spec: the status code `ZError` (a `z_error_t`), declared in `base.hxx`;
`Z_OK` is zero and any other value is a failure code. -/
abbrev ZError := Int

/-- Modelled from the spec: the success status. -/
def Z_OK : ZError := 0

/-- Modelled from the spec: the failure status returned by a zenoh-c decode primitive
(`DecodeError`).  Only its being different from `Z_OK` is used. -/
def Z_EPARSE : ZError := -2

/-- Modelled from the spec: the exception `ZException`, declared in `base.hxx`, thrown when
no `err` out-parameter is supplied. -/
structure ZException where
  /-- The message given to `__ZENOH_ERROR_CHECK`. -/
  message : String
  /-- The native error code. -/
  code : ZError
  deriving DecidableEq, Repr

/-- The argument `ZError* err`: `none` is `nullptr`, `some e` is a pointer to a location
currently holding `e`. -/
abbrev ErrPtr := Option ZError

/-- Modelled from the spec: the content of class `Bytes` (an owned `z_owned_bytes_t`), an
opaque sized container of octets, or the default / sentinel state that represents
"absence".  A payload that is present may hold zero octets; it is not the sentinel. -/
structure Bytes where
  /-- The octets held by the payload, `none` in the sentinel state. -/
  content : Option (List Byte)
  deriving DecidableEq, Repr

/-- Modelled from the spec: the octets seen through a loan of the payload (`loan()`); the
sentinel holds none. -/
def Bytes.data (b : Bytes) : List Byte := b.content.getD []

/-- Modelled from the spec: `z_null(b)` writes the sentinel ("absent") payload. -/
def z_null : Bytes := ⟨none⟩

/-- Modelled from the spec: `z_check(b)` is false exactly on the sentinel payload. -/
def z_check (b : Bytes) : Bool := b.content.isSome

/-- Modelled from the spec: `z_bytes_len(b)` is the number of octets of the payload. -/
def z_bytes_len (b : Bytes) : Nat := b.data.length

/-- Modelled from the spec: `z_bytes_clone(b, dst)` writes a payload with the same content. -/
def z_bytes_clone (b : Bytes) : Bytes := ⟨b.content⟩

/-- Modelled from the spec: `z_bytes_encode_from_slice(b, data, len)` wraps the first `len`
octets at `data` as a flat payload. -/
def z_bytes_encode_from_slice (data : List Byte) (len : Nat) : Bytes :=
  ⟨some (data.take len)⟩

/-- Modelled from the spec: the length prefix of a self-delimiting sub-payload, a
little-endian base-128 integer whose continuation bit is the top bit of each octet.
The first argument bounds the number of continuation octets. -/
def encodeLenAux : Nat → Nat → List Byte
  | 0, n => [Fin.ofNat n]
  | steps + 1, n =>
    if n < 128 then [Fin.ofNat n] else Fin.ofNat (n % 128 + 128) :: encodeLenAux steps (n / 128)

/-- Modelled from the spec: the length prefix of a sub-payload of `n` octets (`n`
continuation steps always suffice, see `decodeLen_encodeLen`). -/
def encodeLen (n : Nat) : List Byte := encodeLenAux n n

/-- Modelled from the spec: reads one length prefix, returning the length and the octets
after it, or `none` when the input ends inside the prefix. -/
def decodeLen : List Byte → Option (Nat × List Byte)
  | [] => none
  | b :: rest =>
    if b.val < 128 then some (b.val, rest)
    else
      match decodeLen rest with
      | some (n, rest') => some (b.val - 128 + 128 * n, rest')
      | none => none

/-- Modelled from the spec: one self-delimiting sub-payload, its length then its octets. -/
def frame (p : Bytes) : List Byte := encodeLen (z_bytes_len p) ++ p.data

/-- Modelled from the spec: reads one self-delimiting sub-payload, returning it and the
octets after it, or `none` when the input is truncated. -/
def readFrame (bs : List Byte) : Option (Bytes × List Byte) :=
  match decodeLen bs with
  | some (n, rest) =>
    if n ≤ rest.length then some (⟨some (rest.take n)⟩, rest.drop n) else none
  | none => none

/-- Modelled from the spec: `z_bytes_encode_from_pair(b, first, second)` combines two payloads
so that they can later be split back into exactly two sub-payloads in the same order. -/
def z_bytes_encode_from_pair (first second : Bytes) : Bytes :=
  ⟨some (frame first ++ frame second)⟩

/-- Modelled from the spec: `z_bytes_decode_into_pair(b, first, second)`, the inverse of
pair encoding.  Returns the status and the two output payloads; on failure (the payload
is not two sub-payloads) the outputs keep the values `first`, `second` they had. -/
def z_bytes_decode_into_pair (b first second : Bytes) : ZError × Bytes × Bytes :=
  match readFrame b.data with
  | some (p, rest) =>
    match readFrame rest with
    | some (q, []) => (Z_OK, p, q)
    | _ => (Z_EPARSE, first, second)
  | none => (Z_EPARSE, first, second)

/-- Modelled from the spec: `z_bytes_encode_from_iter(b, body, context)`.  Calls `body` on
the context to pull the next element payload, appends it as the next self-delimiting
sub-payload, and stops as soon as `body` hands back the sentinel payload.  The first
argument bounds the number of calls of `body`; `none` means the bound was reached before
`body` signalled exhaustion.  Returns the payload built and the final context. -/
def z_bytes_encode_from_iter {σ : Type} (body : σ → Bytes × σ) :
    Nat → σ → List Byte → Option (Bytes × σ)
  | 0, _, _ => none
  | calls + 1, context, acc =>
    match body context with
    | (b, context') =>
      if z_check b then z_bytes_encode_from_iter body calls context' (acc ++ frame b)
      else some (⟨some acc⟩, context')

/-- Modelled from the spec: a `z_bytes_reader_t`, a cursor over the octets of one payload. -/
structure z_bytes_reader_t where
  /-- The octets of the payload read. -/
  data : List Byte
  /-- The current position. -/
  pos : Nat
  deriving DecidableEq, Repr

/-- Modelled from the spec: `z_bytes_get_reader(b)` is a cursor at position 0. -/
def z_bytes_get_reader (b : Bytes) : z_bytes_reader_t := ⟨b.data, 0⟩

/-- Modelled from the spec: `z_bytes_reader_read(reader, buf, len)` copies up to `len` octets
starting at the current position into `buf` and advances the position by the number
copied.  Returns that number, the buffer after the copy, and the reader. -/
def z_bytes_reader_read (r : z_bytes_reader_t) (buf : List Byte) (len : Nat) :
    Nat × List Byte × z_bytes_reader_t :=
  let copied := (r.data.drop r.pos).take len
  (copied.length, copied ++ buf.drop copied.length, ⟨r.data, r.pos + copied.length⟩)

/-- Modelled from the spec: a `z_bytes_iterator_t`, a forward cursor over the sub-payloads
of a composite payload. -/
structure z_bytes_iterator_t where
  /-- The octets not yet consumed. -/
  rest : List Byte
  deriving DecidableEq, Repr

/-- Modelled from the spec: `z_bytes_get_iterator(b)` is a cursor in front of the first
sub-payload. -/
def z_bytes_get_iterator (b : Bytes) : z_bytes_iterator_t := ⟨b.data⟩

/-- Modelled from the spec: `z_bytes_iterator_next(iter, out)` decodes the next sub-payload
(a present payload, possibly of zero octets) and advances by exactly its encoded span;
when none can be read it writes the sentinel and stays where it is. -/
def z_bytes_iterator_next (it : z_bytes_iterator_t) : Bytes × z_bytes_iterator_t :=
  match readFrame it.rest with
  | some (p, rest) => (p, ⟨rest⟩)
  | none => (z_null, it)

/-- Modelled from the spec: the macro `__ZENOH_ERROR_CHECK(code, err, message)` of `base.hxx`.
The `err` parameters are documented in `config.hxx` as "if not null, the error code will
be written to this location, otherwise ZException exception will be thrown in case of
error". -/
def __ZENOH_ERROR_CHECK (code : ZError) (err : ErrPtr) (message : String) :
    Except ZException ErrPtr :=
  match err with
  | none => if code ≠ Z_OK then .error ⟨message, code⟩ else .ok none
  | some _ => .ok (some code)

/-! ## The class `Bytes` -/

namespace Bytes

/-- The constructor `Bytes b(nullptr)`: the payload is set by `z_null`. -/
def null : Bytes := z_null

/-- The conversion `static_cast<bool>(b)` of an owned object: `z_check`. -/
def check (b : Bytes) : Bool := z_check b

/-- The method `Bytes::clone`. -/
def clone (b : Bytes) : Bytes :=
  let _b := Bytes.null
  z_bytes_clone b

/-- The method `Bytes::size`. -/
def size (b : Bytes) : Nat := z_bytes_len b

/-- The method `Bytes::serialize(data, codec)`, that is `codec.serialize(data)`; the overload
of `ZenohCodec::serialize` selected for the static type `T` is the argument `codec`. -/
def serialize {T : Type} (data : T) (codec : T → Bytes) : Bytes := codec data

/-- The context struct `BytesEncodeIteratorBody` of `serialize_from_iter`.  A forward cursor
is represented by the elements from its position up to `end`, so `current == end` is
`current = []`.  The field `pulled` is instrumentation: it records every element
dereferenced by `*s->current`, in order. -/
structure BytesEncodeIteratorBody (T : Type) where
  /-- The elements of the range `[current, end)`. -/
  current : List T
  /-- The elements dereferenced so far (instrumentation). -/
  pulled : List T

/-- The callback `BytesEncodeIteratorBody::encode(b, context)` given to
`z_bytes_encode_from_iter`.  Returns the payload written to `*b` and the updated context. -/
def BytesEncodeIteratorBody.encode {T : Type} (codec : T → Bytes)
    (s : BytesEncodeIteratorBody T) : Bytes × BytesEncodeIteratorBody T :=
  match s.current with
  | [] => (z_null, s)
  | x :: rest => (Bytes.serialize x codec, ⟨rest, s.pulled ++ [x]⟩)

/-- The body of `Bytes::serialize_from_iter(begin, end, codec)` up to the call of
`z_bytes_encode_from_iter`, keeping the final context.  The range has `range.length`
elements, so at most `range.length + 1` calls of the callback are needed (see
`serialize_from_iter_run_eq`). -/
def serialize_from_iter_run {T : Type} (range : List T) (codec : T → Bytes) :
    Option (Bytes × BytesEncodeIteratorBody T) :=
  let body : BytesEncodeIteratorBody T := ⟨range, []⟩
  z_bytes_encode_from_iter (BytesEncodeIteratorBody.encode codec) (range.length + 1) body []

/-- The method `Bytes::serialize_from_iter(begin, end, codec)`. -/
def serialize_from_iter {T : Type} (range : List T) (codec : T → Bytes) : Bytes :=
  let b := Bytes.null
  match serialize_from_iter_run range codec with
  | some (b', _) => b'
  | none => b

/-- The class `Bytes::BytesReader`, a copyable `z_bytes_reader_t`. -/
abbrev BytesReader := z_bytes_reader_t

/-- The method `Bytes::reader`. -/
def reader (b : Bytes) : BytesReader := z_bytes_get_reader b

/-- The method `BytesReader::read(buf, len)`: the number of octets copied, the buffer after
the copy, and the reader. -/
def BytesReader.read (r : BytesReader) (buf : List Byte) (len : Nat) :
    Nat × List Byte × BytesReader := z_bytes_reader_read r buf len

/-- The class `Bytes::Iterator`, a copyable `z_bytes_iterator_t`. -/
abbrev Iterator := z_bytes_iterator_t

/-- The method `Bytes::iter`. -/
def iter (b : Bytes) : Iterator := z_bytes_get_iterator b

/-- The method `Bytes::Iterator::next`: the payload returned and the advanced iterator. -/
def Iterator.next (it : Iterator) : Bytes × Iterator :=
  let _b := Bytes.null
  z_bytes_iterator_next it

end Bytes

/-! ## `std::unordered_map` -/

/-- The standard container `std::unordered_map<K, V>`: its entries in the order in which
`begin()` .. `end()` visits them.  Keys are pairwise distinct (`unordered_map.WF`). -/
structure unordered_map (K V : Type) where
  /-- The entries in iteration order. -/
  entries : List (K × V)

namespace unordered_map

variable {K V : Type} [DecidableEq K]

/-- The invariant of the container: no key occurs twice. -/
def WF (m : unordered_map K V) : Prop := (m.entries.map Prod.fst).Nodup

instance (m : unordered_map K V) : Decidable m.WF :=
  inferInstanceAs (Decidable (m.entries.map Prod.fst).Nodup)

/-- The lookup `find`: the value stored under `k`, if any. -/
def find (m : unordered_map K V) (k : K) : Option V :=
  (m.entries.find? (fun e => decide (e.1 = k))).map Prod.snd

/-- The method `insert(value)` of the C++ standard library: adds the entry when no entry
with an equal key is present, and leaves the container unchanged otherwise. -/
def insert (m : unordered_map K V) (kv : K × V) : unordered_map K V :=
  if (m.find kv.1).isSome then m else ⟨m.entries ++ [kv]⟩

/-- The method `size`. -/
def size (m : unordered_map K V) : Nat := m.entries.length

end unordered_map

/-! ## `detail::ZenohDeserializer` -/

/-- The signature of `ZenohDeserializer<T>::deserialize(b, err)`: either a `ZException` is
thrown, or a value is returned together with the state of the `err` location. -/
abbrev Deserializer (T : Type) := Bytes → ErrPtr → Except ZException (T × ErrPtr)

/-- The method `Bytes::deserialize<T>(err, codec)`: `codec.deserialize<T>(*this, err)`,
which is `detail::ZenohDeserializer<T>::deserialize(*this, err)`, here the argument `de`. -/
def Bytes.deserialize {T : Type} (b : Bytes) (de : Deserializer T) (err : ErrPtr) :
    Except ZException (T × ErrPtr) := de b err

namespace ZenohDeserializer

/-- The function `ZenohDeserializer<std::string>::deserialize`. -/
def deserialize_string : Deserializer (List Byte) := fun b err =>
  let reader := b.reader
  let s : List Byte := List.replicate b.size 48
  let (_, s, _) := reader.read s s.length
  .ok (s, err)

/-- The function `ZenohDeserializer<std::vector<uint8_t>>::deserialize`. -/
def deserialize_vector_uint8 : Deserializer (List Byte) := fun b err =>
  let reader := b.reader
  let v : List Byte := List.replicate b.size 0
  let (_, v, _) := reader.read v b.size
  .ok (v, err)

/-- The function `ZenohDeserializer<std::pair<A, B>>::deserialize`. -/
def deserialize_pair {A B : Type} (deA : Deserializer A) (deB : Deserializer B) :
    Deserializer (A × B) := fun b err =>
  match z_bytes_decode_into_pair b Bytes.null Bytes.null with
  | (code, ba, bb) =>
    match __ZENOH_ERROR_CHECK code err "Failed to deserialize into std::pair" with
    | .error e => .error e
    | .ok err1 =>
      match deA ba err1 with
      | .error e => .error e
      | .ok (a, err2) =>
        match deB bb err2 with
        | .error e => .error e
        | .ok (b', err3) => .ok ((a, b'), err3)

/-- The `for` loop of `ZenohDeserializer<std::vector<T>>::deserialize`.  The first argument
bounds the number of iterations (every iteration consumes octets of the payload, see
`deserialize_vector_loop_fuel`). -/
def deserialize_vector_loop {T : Type} (de : Deserializer T) :
    Nat → Bytes.Iterator → ErrPtr → List T → Except ZException (List T × ErrPtr)
  | 0, _, err, v => .ok (v, err)
  | n + 1, it, err, v =>
    match it.next with
    | (bb, it') =>
      if bb.check then
        match bb.deserialize de err with
        | .error e => .error e
        | .ok (x, err') => deserialize_vector_loop de n it' err' (v ++ [x])
      else .ok (v, err)

/-- The function `ZenohDeserializer<std::vector<T>>::deserialize`. -/
def deserialize_vector {T : Type} (de : Deserializer T) : Deserializer (List T) :=
  fun b err => deserialize_vector_loop de (b.size + 1) b.iter err []

/-- The `for` loop of `ZenohDeserializer<std::unordered_map<K, V>>::deserialize`. -/
def deserialize_unordered_map_loop {K V : Type} [DecidableEq K]
    (deK : Deserializer K) (deV : Deserializer V) :
    Nat → Bytes.Iterator → ErrPtr → unordered_map K V →
      Except ZException (unordered_map K V × ErrPtr)
  | 0, _, err, m => .ok (m, err)
  | n + 1, it, err, m =>
    match it.next with
    | (bb, it') =>
      if bb.check then
        match bb.deserialize (deserialize_pair deK deV) err with
        | .error e => .error e
        | .ok (kv, err') => deserialize_unordered_map_loop deK deV n it' err' (m.insert kv)
      else .ok (m, err)

/-- The function `ZenohDeserializer<std::unordered_map<K, V>>::deserialize`. -/
def deserialize_unordered_map {K V : Type} [DecidableEq K]
    (deK : Deserializer K) (deV : Deserializer V) : Deserializer (unordered_map K V) :=
  fun b err => deserialize_unordered_map_loop deK deV (b.size + 1) b.iter err ⟨[]⟩

end ZenohDeserializer

/-! ## `struct ZenohCodec` -/

namespace ZenohCodec

/-- The function `ZenohCodec::serialize(const std::pair<const uint8_t*, size_t>&)`: the
argument is a pointer to octets and a length. -/
def serialize_slice (s : List Byte × Nat) : Bytes :=
  let b := z_bytes_encode_from_slice s.1 s.2
  b

/-- The function `ZenohCodec::serialize(std::string_view)`. -/
def serialize_string_view (s : List Byte) : Bytes :=
  serialize_slice (s, s.length)

/-- The function `ZenohCodec::serialize(const std::vector<uint8_t>&)`: the payload built
from the slice is discarded and the payload `b`, still the sentinel, is returned. -/
def serialize_vector_uint8 (s : List Byte) : Bytes :=
  let b := Bytes.null
  let _discarded := serialize_slice (s, s.length)
  b

/-- The function `ZenohCodec::serialize(const std::vector<T>&)`. -/
def serialize_vector {T : Type} (codec : T → Bytes) (s : List T) : Bytes :=
  Bytes.serialize_from_iter s codec

/-- The function `ZenohCodec::serialize(const std::pair<A, B>&)`. -/
def serialize_pair {A B : Type} (codecA : A → Bytes) (codecB : B → Bytes) (s : A × B) :
    Bytes :=
  let ba := codecA s.1
  let bb := codecB s.2
  z_bytes_encode_from_pair ba bb

/-- The function `ZenohCodec::serialize(const std::unordered_map<K, V>&)`: the elements
visited are the entries, each a `std::pair<const K, V>`. -/
def serialize_unordered_map {K V : Type} (codecK : K → Bytes) (codecV : V → Bytes)
    (s : unordered_map K V) : Bytes :=
  Bytes.serialize_from_iter s.entries (serialize_pair codecK codecV)

/-- The function `ZenohCodec::deserialize<T>(b, err)`. -/
def deserialize {T : Type} (de : Deserializer T) (b : Bytes) (err : ErrPtr) :
    Except ZException (T × ErrPtr) := de b err

end ZenohCodec

/-! ## Vocabulary of the statements -/

/-- The concatenation of the self-delimiting encodings of the payloads `ps`. -/
def frames : List Bytes → List Byte
  | [] => []
  | p :: ps => frame p ++ frames ps

/-- The payloads returned by `n` successive calls of `Bytes::Iterator::next`. -/
def Bytes.Iterator.nextN : Nat → Bytes.Iterator → List Bytes
  | 0, _ => []
  | n + 1, it => (it.next).1 :: Bytes.Iterator.nextN n (it.next).2

/-- The state `err'` of the `err` location after a call that reported no failure: either
untouched, or (when an out-parameter was supplied) holding `Z_OK`. -/
def StatusKept (err err' : ErrPtr) : Prop :=
  err' = err ∨ err' = err.map (fun _ => Z_OK)

/-- The value `x` round-trips through `codec` and `de`: in both error modes
`deserialize<T>` returns `x` on `serialize(x)`, and on every payload that holds the same
octets (pair and sequence decoding hand a component decoder a payload rebuilt from the
octets); nothing is thrown and no failure code is written to `err`. -/
def RoundTrip {T : Type} (codec : T → Bytes) (de : Deserializer T) (x : T) : Prop :=
  ∀ b : Bytes, b.data = (codec x).data →
    ∀ err : ErrPtr, ∃ err' : ErrPtr,
      ZenohCodec.deserialize de b err = .ok (x, err') ∧ StatusKept err err'

/-! ## Facts about the modelled primitives -/

theorem decodeLen_encodeLenAux (rest : List Byte) :
    ∀ (steps n : Nat), n ≤ steps ∨ n < 128 →
      decodeLen (encodeLenAux steps n ++ rest) = some (n, rest) := by
  intro steps
  induction steps with
  | zero =>
    intro n h
    have hn : n < 128 := by omega
    have hv : ((Fin.ofNat n : Byte)).val = n := by
      simp only [Fin.ofNat]; omega
    simp [encodeLenAux, decodeLen, hv, hn]
  | succ k ih =>
    intro n h
    by_cases hn : n < 128
    · have hv : ((Fin.ofNat n : Byte)).val = n := by
        simp only [Fin.ofNat]; omega
      simp [encodeLenAux, decodeLen, hv, hn]
    · have hv : ((Fin.ofNat (n % 128 + 128) : Byte)).val = n % 128 + 128 := by
        simp only [Fin.ofNat]; omega
      have hrec := ih (n / 128) (by omega)
      simp only [encodeLenAux, hn, if_false, List.cons_append, decodeLen, hv, hrec]
      have : ¬ (n % 128 + 128 < 128) := by omega
      simp only [this, if_false]
      congr 2
      omega

theorem decodeLen_encodeLen (n : Nat) (rest : List Byte) :
    decodeLen (encodeLen n ++ rest) = some (n, rest) :=
  decodeLen_encodeLenAux rest n n (Or.inl (Nat.le_refl n))

/-- Reading back a sub-payload gives a present payload holding its octets. -/
theorem readFrame_frame (p : Bytes) (rest : List Byte) :
    readFrame (frame p ++ rest) = some (⟨some p.data⟩, rest) := by
  simp [readFrame, frame, List.append_assoc, decodeLen_encodeLen, z_bytes_len]

theorem encodeLenAux_length_pos (steps n : Nat) : 0 < (encodeLenAux steps n).length := by
  cases steps with
  | zero => simp [encodeLenAux]
  | succ k =>
    by_cases hn : n < 128
    · simp [encodeLenAux, hn]
    · simp [encodeLenAux, hn]

theorem frame_length_pos (p : Bytes) : 0 < (frame p).length := by
  have := encodeLenAux_length_pos (z_bytes_len p) (z_bytes_len p)
  simp only [frame, encodeLen, List.length_append]
  omega

theorem decodeLen_consumes :
    ∀ (bs : List Byte) (n : Nat) (rest : List Byte),
      decodeLen bs = some (n, rest) → rest.length < bs.length := by
  intro bs
  induction bs with
  | nil => intro n rest h; simp [decodeLen] at h
  | cons b tl ih =>
    intro n rest h
    by_cases hb : b.val < 128
    · simp only [decodeLen, hb, if_true, Option.some.injEq, Prod.mk.injEq] at h
      rw [← h.2]; simp
    · simp only [decodeLen, hb, if_false] at h
      cases hrec : decodeLen tl with
      | none => rw [hrec] at h; simp at h
      | some r =>
        obtain ⟨m, rest'⟩ := r
        rw [hrec] at h
        simp only [Option.some.injEq, Prod.mk.injEq] at h
        have := ih m rest' hrec
        rw [← h.2]
        simp only [List.length_cons]
        omega

theorem readFrame_consumes (bs : List Byte) (p : Bytes) (rest : List Byte)
    (h : readFrame bs = some (p, rest)) : rest.length < bs.length := by
  unfold readFrame at h
  cases hd : decodeLen bs with
  | none => rw [hd] at h; simp at h
  | some r =>
    obtain ⟨n, tl⟩ := r
    rw [hd] at h
    have hlt := decodeLen_consumes bs n tl hd
    by_cases hn : n ≤ tl.length
    · simp only [hn, if_true, Option.some.injEq, Prod.mk.injEq] at h
      rw [← h.2]
      simp only [List.length_drop]
      omega
    · simp [hn] at h

/-- The string decoder returns the octets of the payload, whatever the payload, never throws
and never writes to `err`. -/
theorem deserialize_string_eq (b : Bytes) (err : ErrPtr) :
    ZenohDeserializer.deserialize_string b err = .ok (b.data, err) := by
  simp [ZenohDeserializer.deserialize_string, Bytes.reader, Bytes.BytesReader.read, Bytes.size,
    z_bytes_get_reader, z_bytes_reader_read, z_bytes_len]

/-- The byte-vector decoder returns the octets of the payload. -/
theorem deserialize_vector_uint8_eq (b : Bytes) (err : ErrPtr) :
    ZenohDeserializer.deserialize_vector_uint8 b err = .ok (b.data, err) := by
  simp [ZenohDeserializer.deserialize_vector_uint8, Bytes.reader, Bytes.BytesReader.read,
    Bytes.size, z_bytes_get_reader, z_bytes_reader_read, z_bytes_len]

/-- The string serializer returns a present payload holding the octets of the string. -/
theorem serialize_string_view_eq (s : List Byte) :
    ZenohCodec.serialize_string_view s = ⟨some s⟩ := by
  simp [ZenohCodec.serialize_string_view, ZenohCodec.serialize_slice, z_bytes_encode_from_slice]

theorem serialize_string_view_data (s : List Byte) :
    (ZenohCodec.serialize_string_view s).data = s := by
  rw [serialize_string_view_eq]; rfl

theorem length_le_frames : ∀ ps : List Bytes, ps.length ≤ (frames ps).length := by
  intro ps
  induction ps with
  | nil => simp [frames]
  | cons p tl ih =>
    have := frame_length_pos p
    simp only [frames, List.length_cons, List.length_append]
    omega

theorem statusKept_refl (err : ErrPtr) : StatusKept err err := Or.inl rfl

theorem statusKept_trans {a b c : ErrPtr} (h1 : StatusKept a b) (h2 : StatusKept b c) :
    StatusKept a c := by
  unfold StatusKept at *
  rcases h1 with h1 | h1 <;> rcases h2 with h2 | h2 <;> subst h1 <;> subst h2
  · exact Or.inl rfl
  · exact Or.inr rfl
  · exact Or.inr rfl
  · right; cases a <;> rfl

/-- What `z_bytes_encode_from_iter` does with the callback of `serialize_from_iter`: it frames
the elements before the first one whose payload is the sentinel, and the callback has
dereferenced exactly those elements and that first one. -/
theorem encode_from_iter_run {T : Type} (codec : T → Bytes) :
    ∀ (xs : List T) (calls : Nat) (pulled : List T) (acc : List Byte), xs.length < calls →
      z_bytes_encode_from_iter (Bytes.BytesEncodeIteratorBody.encode codec) calls
          ⟨xs, pulled⟩ acc =
        some (⟨some (acc ++ frames ((xs.takeWhile (fun x => (codec x).check)).map codec))⟩,
          ⟨(xs.dropWhile (fun x => (codec x).check)).drop 1,
            pulled ++ xs.take ((xs.takeWhile (fun x => (codec x).check)).length + 1)⟩) := by
  intro xs
  induction xs with
  | nil =>
    intro calls pulled acc h
    cases calls with
    | zero => simp at h
    | succ k =>
      simp [z_bytes_encode_from_iter, Bytes.BytesEncodeIteratorBody.encode, z_null,
        z_check, frames]
  | cons x tl ih =>
    intro calls pulled acc h
    cases calls with
    | zero => simp at h
    | succ k =>
      have hk : tl.length < k := by simpa using h
      by_cases hx : (codec x).check = true
      · have hz : z_check (codec x) = true := hx
        simp only [z_bytes_encode_from_iter, Bytes.BytesEncodeIteratorBody.encode,
          Bytes.serialize, hz, if_true]
        rw [ih k (pulled ++ [x]) (acc ++ frame (codec x)) hk]
        simp [hx, frames, List.append_assoc]
      · have hz : z_check (codec x) = false := by simpa [Bytes.check] using hx
        simp only [z_bytes_encode_from_iter, Bytes.BytesEncodeIteratorBody.encode,
          Bytes.serialize, hz]
        simp [hx, frames]

/-- The bound on the number of callback calls used by `serialize_from_iter` is never
reached. -/
theorem serialize_from_iter_run_eq {T : Type} (codec : T → Bytes) (xs : List T) :
    Bytes.serialize_from_iter_run xs codec =
      some (⟨some (frames ((xs.takeWhile (fun x => (codec x).check)).map codec))⟩,
        ⟨(xs.dropWhile (fun x => (codec x).check)).drop 1,
          xs.take ((xs.takeWhile (fun x => (codec x).check)).length + 1)⟩) := by
  unfold Bytes.serialize_from_iter_run
  rw [encode_from_iter_run codec xs (xs.length + 1) [] [] (Nat.lt_succ_self _)]
  simp

theorem serialize_from_iter_eq {T : Type} (codec : T → Bytes) (xs : List T) :
    Bytes.serialize_from_iter xs codec =
      ⟨some (frames ((xs.takeWhile (fun x => (codec x).check)).map codec))⟩ := by
  unfold Bytes.serialize_from_iter
  rw [serialize_from_iter_run_eq]

theorem takeWhile_all {T : Type} (p : T → Bool) :
    ∀ xs : List T, (∀ x ∈ xs, p x = true) → xs.takeWhile p = xs := by
  intro xs
  induction xs with
  | nil => intro _; rfl
  | cons x tl ih =>
    intro h
    have hx : p x = true := h x (List.mem_cons_self x tl)
    simp only [List.takeWhile_cons, hx, if_true]
    rw [ih (fun y hy => h y (List.mem_cons_of_mem x hy))]

/-- A sequence none of whose elements serializes to the sentinel is encoded as the
concatenation of the encodings of all its elements. -/
theorem serialize_vector_data {T : Type} (codec : T → Bytes) (xs : List T)
    (h : ∀ x ∈ xs, (codec x).check = true) :
    ZenohCodec.serialize_vector codec xs = ⟨some (frames (xs.map codec))⟩ := by
  unfold ZenohCodec.serialize_vector
  rw [serialize_from_iter_eq, takeWhile_all _ xs h]

theorem iterator_next_frame (p : Bytes) (rest : List Byte) :
    Bytes.Iterator.next ⟨frame p ++ rest⟩ = (⟨some p.data⟩, ⟨rest⟩) := by
  simp [Bytes.Iterator.next, z_bytes_iterator_next, readFrame_frame]

theorem iterator_next_nil : Bytes.Iterator.next ⟨[]⟩ = (Bytes.null, ⟨[]⟩) := by
  simp [Bytes.Iterator.next, z_bytes_iterator_next, readFrame, decodeLen, Bytes.null]

/-- Any two iteration bounds above the number of remaining octets give the same result:
the bound `b.size + 1` of `deserialize_vector` is never reached. -/
theorem deserialize_vector_loop_fuel {T : Type} (de : Deserializer T) :
    ∀ (n m : Nat) (it : Bytes.Iterator) (err : ErrPtr) (v : List T),
      it.rest.length < n → it.rest.length < m →
      ZenohDeserializer.deserialize_vector_loop de n it err v =
        ZenohDeserializer.deserialize_vector_loop de m it err v := by
  intro n
  induction n with
  | zero => intro m it err v h; simp at h
  | succ k ih =>
    intro m it err v hn hm
    cases m with
    | zero => simp at hm
    | succ j =>
      simp only [ZenohDeserializer.deserialize_vector_loop, Bytes.Iterator.next,
        z_bytes_iterator_next]
      cases hr : readFrame it.rest with
      | none => simp [Bytes.check, z_check, z_null]
      | some r =>
        obtain ⟨p, rest⟩ := r
        have hlt := readFrame_consumes it.rest p rest hr
        simp only
        by_cases hp : p.check = true
        · simp only [hp, if_true]
          cases hd : p.deserialize de err with
          | error e => rfl
          | ok r =>
            obtain ⟨x, err'⟩ := r
            simp only
            exact ih j ⟨rest⟩ err' (v ++ [x]) (by simp only; omega) (by simp only; omega)
        · simp [hp]

/-- Decoding the concatenation of the encodings of `xs` element by element. -/
theorem deserialize_vector_loop_frames {T : Type} (codec : T → Bytes) (de : Deserializer T) :
    ∀ (xs : List T) (n : Nat) (err : ErrPtr) (v : List T),
      (∀ x ∈ xs, RoundTrip codec de x) → xs.length < n →
      ∃ err', ZenohDeserializer.deserialize_vector_loop de n ⟨frames (xs.map codec)⟩ err v
          = .ok (v ++ xs, err') ∧ StatusKept err err' := by
  intro xs
  induction xs with
  | nil =>
    intro n err v _ hn
    cases n with
    | zero => simp at hn
    | succ k =>
      refine ⟨err, ?_, statusKept_refl err⟩
      simp [ZenohDeserializer.deserialize_vector_loop, frames, iterator_next_nil, Bytes.null,
        Bytes.check, z_check, z_null]
  | cons x tl ih =>
    intro n err v h hn
    cases n with
    | zero => simp at hn
    | succ k =>
      have hk : tl.length < k := by simpa using hn
      have hrt := h x (List.mem_cons_self x tl)
      obtain ⟨err1, hde, hk1⟩ := hrt ⟨some (codec x).data⟩ rfl err
      obtain ⟨err2, hloop, hk2⟩ :=
        ih k err1 (v ++ [x]) (fun y hy => h y (List.mem_cons_of_mem x hy)) hk
      refine ⟨err2, ?_, statusKept_trans hk1 hk2⟩
      simp only [ZenohCodec.deserialize] at hde
      have hchk : Bytes.check ⟨some (codec x).data⟩ = true := rfl
      simp only [List.map_cons, frames, ZenohDeserializer.deserialize_vector_loop,
        iterator_next_frame, hchk, if_true, Bytes.deserialize, hde, hloop,
        List.append_assoc, List.singleton_append]

/-- Composition of round trips: a sequence whose elements round-trip and serialize to
non-sentinel payloads round-trips. -/
theorem roundTrip_vector {T : Type} (codec : T → Bytes) (de : Deserializer T) (xs : List T)
    (h : ∀ x ∈ xs, RoundTrip codec de x ∧ (codec x).check = true) :
    RoundTrip (ZenohCodec.serialize_vector codec) (ZenohDeserializer.deserialize_vector de)
      xs := by
  intro b hb err
  rw [serialize_vector_data codec xs (fun x hx => (h x hx).2)] at hb
  have hb' : b.data = frames (xs.map codec) := hb
  have hlen : xs.length < (frames (xs.map codec)).length + 1 := by
    have := length_le_frames (xs.map codec)
    simp only [List.length_map] at this
    omega
  obtain ⟨err', hloop, hk⟩ :=
    deserialize_vector_loop_frames codec de xs _ err [] (fun x hx => (h x hx).1) hlen
  exact ⟨err', by simpa [ZenohCodec.deserialize, ZenohDeserializer.deserialize_vector,
    Bytes.size, Bytes.iter, z_bytes_len, z_bytes_get_iterator, hb'] using hloop, hk⟩

theorem roundTrip_string (s : List Byte) :
    RoundTrip ZenohCodec.serialize_string_view ZenohDeserializer.deserialize_string s := by
  intro b hb err
  refine ⟨err, ?_, statusKept_refl err⟩
  simp [ZenohCodec.deserialize, deserialize_string_eq, hb, serialize_string_view_data]

/-- The pair-decoding primitive splits a pair-encoded payload into two present payloads
holding the octets of the two payloads it was built from, in the same order. -/
theorem decode_into_pair_encode (b ba bb first second : Bytes)
    (hb : b.data = (z_bytes_encode_from_pair ba bb).data) :
    z_bytes_decode_into_pair b first second = (Z_OK, ⟨some ba.data⟩, ⟨some bb.data⟩) := by
  have hb' : b.data = frame ba ++ frame bb := hb
  have h2 : readFrame (frame bb) = some (⟨some bb.data⟩, []) := by
    simpa using readFrame_frame bb []
  simp [z_bytes_decode_into_pair, hb', readFrame_frame, h2]

theorem serialize_pair_check {A B : Type} (codecA : A → Bytes) (codecB : B → Bytes)
    (s : A × B) : (ZenohCodec.serialize_pair codecA codecB s).check = true := rfl

/-- Composition of round trips: a pair whose components round-trip round-trips. -/
theorem roundTrip_pair {A B : Type} (codecA : A → Bytes) (codecB : B → Bytes)
    (deA : Deserializer A) (deB : Deserializer B) (a : A) (b : B)
    (ha : RoundTrip codecA deA a) (hb : RoundTrip codecB deB b) :
    RoundTrip (ZenohCodec.serialize_pair codecA codecB)
      (ZenohDeserializer.deserialize_pair deA deB) (a, b) := by
  intro p hp err
  have hcheck : ∃ err1, __ZENOH_ERROR_CHECK Z_OK err "Failed to deserialize into std::pair"
      = .ok err1 ∧ StatusKept err err1 := by
    cases err with
    | none => exact ⟨none, by simp [__ZENOH_ERROR_CHECK], Or.inl rfl⟩
    | some e => exact ⟨some Z_OK, by simp [__ZENOH_ERROR_CHECK], Or.inr rfl⟩
  obtain ⟨err1, hc, hk1⟩ := hcheck
  obtain ⟨err2, hda, hk2⟩ := ha ⟨some (codecA a).data⟩ rfl err1
  obtain ⟨err3, hdb, hk3⟩ := hb ⟨some (codecB b).data⟩ rfl err2
  refine ⟨err3, ?_, statusKept_trans hk1 (statusKept_trans hk2 hk3)⟩
  simp only [ZenohCodec.deserialize] at hda hdb
  have hsplit := decode_into_pair_encode p (codecA a) (codecB b) Bytes.null Bytes.null hp
  simp only [ZenohCodec.deserialize, ZenohDeserializer.deserialize_pair, hsplit, hc, hda, hdb]

theorem find_insert {K V : Type} [DecidableEq K] (m : unordered_map K V) (kv : K × V) (k : K) :
    (m.insert kv).find k =
      match m.find k with
      | some v => some v
      | none => if kv.1 = k then some kv.2 else none := by
  unfold unordered_map.insert
  by_cases hp : (m.find kv.1).isSome = true
  · simp only [hp, if_true]
    cases hk : m.find k with
    | some v => rfl
    | none =>
      by_cases hkk : kv.1 = k
      · rw [hkk, hk] at hp; simp at hp
      · simp [hkk]
  · simp only [hp]
    cases hk : m.find k with
    | some v =>
      simp only [unordered_map.find, Bool.false_eq_true, if_false, List.find?_append] at hk ⊢
      cases hf : List.find? (fun e => decide (e.1 = k)) m.entries with
      | none => rw [hf] at hk; simp at hk
      | some e => rw [hf] at hk; simpa using hk
    | none =>
      simp only [unordered_map.find, Bool.false_eq_true, if_false, List.find?_append] at hk ⊢
      cases hf : List.find? (fun e => decide (e.1 = k)) m.entries with
      | none =>
        by_cases hkk : kv.1 = k
        · simp [hkk]
        · simp [hkk]
      | some e => rw [hf] at hk; simp at hk

/-- Inserting a sequence of entries one after the other keeps, for every key, the value of
its first occurrence. -/
theorem find_foldl_insert {K V : Type} [DecidableEq K] (k : K) :
    ∀ (kvs : List (K × V)) (m : unordered_map K V),
      (kvs.foldl unordered_map.insert m).find k =
        match m.find k with
        | some v => some v
        | none => (kvs.find? (fun e => decide (e.1 = k))).map Prod.snd := by
  intro kvs
  induction kvs with
  | nil => intro m; cases h : m.find k <;> simp [h]
  | cons kv tl ih =>
    intro m
    simp only [List.foldl_cons]
    rw [ih (m.insert kv), find_insert]
    cases hk : m.find k with
    | some v => rfl
    | none =>
      by_cases hkk : kv.1 = k
      · simp [hkk]
      · simp [hkk]

/-- Decoding, as a map, the concatenation of the pair encodings of `kvs`. -/
theorem deserialize_unordered_map_loop_frames {K V : Type} [DecidableEq K]
    (codecK : K → Bytes) (codecV : V → Bytes) (deK : Deserializer K) (deV : Deserializer V) :
    ∀ (kvs : List (K × V)) (n : Nat) (err : ErrPtr) (m : unordered_map K V),
      (∀ kv ∈ kvs, RoundTrip codecK deK kv.1 ∧ RoundTrip codecV deV kv.2) →
      kvs.length < n →
      ∃ err', ZenohDeserializer.deserialize_unordered_map_loop deK deV n
          ⟨frames (kvs.map (ZenohCodec.serialize_pair codecK codecV))⟩ err m
          = .ok (kvs.foldl unordered_map.insert m, err') ∧ StatusKept err err' := by
  intro kvs
  induction kvs with
  | nil =>
    intro n err m _ hn
    cases n with
    | zero => simp at hn
    | succ k =>
      refine ⟨err, ?_, statusKept_refl err⟩
      simp [ZenohDeserializer.deserialize_unordered_map_loop, frames, iterator_next_nil,
        Bytes.null, Bytes.check, z_check, z_null]
  | cons kv tl ih =>
    intro n err m h hn
    cases n with
    | zero => simp at hn
    | succ k =>
      have hk : tl.length < k := by simpa using hn
      obtain ⟨hrk, hrv⟩ := h kv (List.mem_cons_self kv tl)
      obtain ⟨err1, hde, hk1⟩ :=
        roundTrip_pair codecK codecV deK deV kv.1 kv.2 hrk hrv
          ⟨some (ZenohCodec.serialize_pair codecK codecV kv).data⟩ rfl err
      obtain ⟨err2, hloop, hk2⟩ :=
        ih k err1 (m.insert kv) (fun y hy => h y (List.mem_cons_of_mem kv hy)) hk
      refine ⟨err2, ?_, statusKept_trans hk1 hk2⟩
      simp only [ZenohCodec.deserialize] at hde
      have hchk : Bytes.check
          ⟨some (ZenohCodec.serialize_pair codecK codecV kv).data⟩ = true := rfl
      simp only [List.map_cons, frames, ZenohDeserializer.deserialize_unordered_map_loop,
        iterator_next_frame, hchk, if_true, Bytes.deserialize, hde, hloop,
        List.foldl_cons]

/-- The bound `b.size + 1` of `deserialize_unordered_map` is never reached. -/
theorem deserialize_unordered_map_loop_fuel {K V : Type} [DecidableEq K]
    (deK : Deserializer K) (deV : Deserializer V) :
    ∀ (n j : Nat) (it : Bytes.Iterator) (err : ErrPtr) (m : unordered_map K V),
      it.rest.length < n → it.rest.length < j →
      ZenohDeserializer.deserialize_unordered_map_loop deK deV n it err m =
        ZenohDeserializer.deserialize_unordered_map_loop deK deV j it err m := by
  intro n
  induction n with
  | zero => intro j it err m h; simp at h
  | succ k ih =>
    intro j it err m hn hj
    cases j with
    | zero => simp at hj
    | succ i =>
      simp only [ZenohDeserializer.deserialize_unordered_map_loop, Bytes.Iterator.next,
        z_bytes_iterator_next]
      cases hr : readFrame it.rest with
      | none => simp [Bytes.check, z_check, z_null]
      | some r =>
        obtain ⟨p, rest⟩ := r
        have hlt := readFrame_consumes it.rest p rest hr
        simp only
        by_cases hp : p.check = true
        · simp only [hp, if_true]
          cases hd : p.deserialize (ZenohDeserializer.deserialize_pair deK deV) err with
          | error e => rfl
          | ok r =>
            obtain ⟨x, err'⟩ := r
            simp only
            exact ih i ⟨rest⟩ err' (m.insert x) (by simp only; omega) (by simp only; omega)
        · simp [hp]

/-- Decoding as a map the encoding of a sequence of key-value pairs: the result is the
sequence inserted entry by entry into the empty map. -/
theorem deserialize_unordered_map_of_pairs {K V : Type} [DecidableEq K]
    (codecK : K → Bytes) (codecV : V → Bytes) (deK : Deserializer K) (deV : Deserializer V)
    (kvs : List (K × V))
    (h : ∀ kv ∈ kvs, RoundTrip codecK deK kv.1 ∧ RoundTrip codecV deV kv.2) (err : ErrPtr) :
    ∃ err', ZenohCodec.deserialize (ZenohDeserializer.deserialize_unordered_map deK deV)
        (ZenohCodec.serialize_vector (ZenohCodec.serialize_pair codecK codecV) kvs) err
        = .ok (kvs.foldl unordered_map.insert ⟨[]⟩, err') ∧ StatusKept err err' := by
  rw [serialize_vector_data _ kvs (fun x _ => serialize_pair_check codecK codecV x)]
  have hlen : kvs.length <
      (frames (kvs.map (ZenohCodec.serialize_pair codecK codecV))).length + 1 := by
    have := length_le_frames (kvs.map (ZenohCodec.serialize_pair codecK codecV))
    simp only [List.length_map] at this
    omega
  obtain ⟨err', hloop, hk⟩ :=
    deserialize_unordered_map_loop_frames codecK codecV deK deV kvs _ err ⟨[]⟩ h hlen
  exact ⟨err', by simpa [ZenohCodec.deserialize, ZenohDeserializer.deserialize_unordered_map,
    Bytes.size, Bytes.iter, z_bytes_len, z_bytes_get_iterator, Bytes.data] using hloop, hk⟩

/-! ## The claims -/

/-- C1 (string round trip): `ZenohCodec::serialize(std::string_view)` wraps the octets of `s`
as a flat payload of size `s.size()`, the reader of `deserialize<std::string>` copies
`payload.size()` octets, and `deserialize<std::string>(serialize(s))` returns `s` in both
error modes, leaving `err` untouched; the payload is present (not the sentinel) even for
the empty string. -/
theorem C1_string_round_trip (s : List Byte) (err : ErrPtr) :
    (ZenohCodec.serialize_string_view s).data = s ∧
    (ZenohCodec.serialize_string_view s).size = s.length ∧
    ((ZenohCodec.serialize_string_view s).reader.read
        (List.replicate (ZenohCodec.serialize_string_view s).size 48)
        (ZenohCodec.serialize_string_view s).size).1 = (ZenohCodec.serialize_string_view s).size ∧
    ZenohCodec.deserialize ZenohDeserializer.deserialize_string
        (ZenohCodec.serialize_string_view s) err = .ok (s, err) ∧
    (ZenohCodec.serialize_string_view s).check = true := by
  refine ⟨serialize_string_view_data s, ?_, ?_, ?_, ?_⟩
  · simp [Bytes.size, z_bytes_len, serialize_string_view_data]
  · simp [Bytes.size, Bytes.reader, Bytes.BytesReader.read, z_bytes_len, z_bytes_get_reader,
      z_bytes_reader_read, serialize_string_view_data]
  · simp [ZenohCodec.deserialize, deserialize_string_eq, serialize_string_view_data]
  · rw [serialize_string_view_eq]; rfl

/-- C1 at the string "abc". -/
theorem C1_string_round_trip_abc :
    ZenohCodec.deserialize ZenohDeserializer.deserialize_string
        (ZenohCodec.serialize_string_view [97, 98, 99]) none = .ok ([97, 98, 99], none) :=
  (C1_string_round_trip [97, 98, 99] none).2.2.2.1

/-- C2 (byte-sequence round trip, violated by the code): on the byte vector `[0x01]`,
`ZenohCodec::serialize(const std::vector<uint8_t>&)` returns the sentinel payload of size 0
although the slice overload it calls builds the payload holding `0x01`, and decoding the
result gives the empty vector; the overload returns the sentinel on every input. -/
theorem C2_serialize_vector_uint8_drops_payload :
    (ZenohCodec.serialize_slice ([1], 1)).data = [1] ∧
    ZenohCodec.serialize_vector_uint8 [1] = Bytes.null ∧
    (ZenohCodec.serialize_vector_uint8 [1]).size = 0 ∧
    ZenohCodec.deserialize ZenohDeserializer.deserialize_vector_uint8
        (ZenohCodec.serialize_vector_uint8 [1]) none = .ok ([], none) ∧
    (∀ v : List Byte, ZenohCodec.serialize_vector_uint8 v = Bytes.null) :=
  ⟨rfl, rfl, rfl, rfl, fun _ => rfl⟩

/-- C3 (pair round trip, violated by the code): the pair `({0x01}, "x")` of a byte vector and
a string decodes to `({}, "x")`, because `serialize` of its first component returns the
sentinel (the defect of C2); the pair `("key", "value")` of strings is split by the
pair-decoding primitive into `serialize("key")` and `serialize("value")` and decodes to
itself. -/
theorem C3_pair_byte_vector_component_lost :
    ZenohCodec.serialize_vector_uint8 [1] = Bytes.null ∧
    ZenohCodec.deserialize
        (ZenohDeserializer.deserialize_pair ZenohDeserializer.deserialize_vector_uint8
          ZenohDeserializer.deserialize_string)
        (ZenohCodec.serialize_pair ZenohCodec.serialize_vector_uint8
          ZenohCodec.serialize_string_view (([1] : List Byte), ([120] : List Byte))) none
      = .ok (([], [120]), none) ∧
    (([], [120]) : List Byte × List Byte) ≠ ([1], [120]) ∧
    z_bytes_decode_into_pair
        (ZenohCodec.serialize_pair ZenohCodec.serialize_string_view
          ZenohCodec.serialize_string_view
          (([107, 101, 121] : List Byte), ([118, 97, 108, 117, 101] : List Byte)))
        Bytes.null Bytes.null
      = (Z_OK, ZenohCodec.serialize_string_view [107, 101, 121],
          ZenohCodec.serialize_string_view [118, 97, 108, 117, 101]) ∧
    ZenohCodec.deserialize
        (ZenohDeserializer.deserialize_pair ZenohDeserializer.deserialize_string
          ZenohDeserializer.deserialize_string)
        (ZenohCodec.serialize_pair ZenohCodec.serialize_string_view
          ZenohCodec.serialize_string_view
          (([107, 101, 121] : List Byte), ([118, 97, 108, 117, 101] : List Byte))) none
      = .ok (([107, 101, 121], [118, 97, 108, 117, 101]), none) :=
  ⟨rfl, rfl, by decide, rfl, rfl⟩

/-- C4 (sequence round trip, violated by the code): the sequence `{{0x01}, {0x02}}` of byte
vectors decodes to the empty sequence, because `serialize` of its first element returns the
sentinel (the defect of C2), which the encode callback protocol reads as the end of the
source; the sequence `{("k", "v"), ("", "")}` of pairs of strings decodes to itself. -/
theorem C4_sequence_of_byte_vectors_lost :
    ZenohCodec.deserialize
        (ZenohDeserializer.deserialize_vector ZenohDeserializer.deserialize_vector_uint8)
        (ZenohCodec.serialize_vector ZenohCodec.serialize_vector_uint8
          ([[1], [2]] : List (List Byte))) none
      = .ok ([], none) ∧
    ([] : List (List Byte)) ≠ [[1], [2]] ∧
    ZenohCodec.deserialize
        (ZenohDeserializer.deserialize_vector
          (ZenohDeserializer.deserialize_pair ZenohDeserializer.deserialize_string
            ZenohDeserializer.deserialize_string))
        (ZenohCodec.serialize_vector
          (ZenohCodec.serialize_pair ZenohCodec.serialize_string_view
            ZenohCodec.serialize_string_view)
          ([([107], [118]), ([], [])] : List (List Byte × List Byte))) none
      = .ok ([([107], [118]), ([], [])], none) :=
  ⟨rfl, by decide, rfl⟩

/-- C5 (map round trip, violated by the code): the map `{"k" -> {0x01}}` from strings to byte
vectors decodes to a map holding the empty vector under `"k"`, because `serialize` of the
value returns the sentinel (the defect of C2); the map `{"a" -> "x", "b" -> ""}` of strings
decodes to a map with the same two entries. -/
theorem C5_map_byte_vector_value_lost :
    (∃ m' : unordered_map (List Byte) (List Byte),
      ZenohCodec.deserialize
          (ZenohDeserializer.deserialize_unordered_map ZenohDeserializer.deserialize_string
            ZenohDeserializer.deserialize_vector_uint8)
          (ZenohCodec.serialize_unordered_map ZenohCodec.serialize_string_view
            ZenohCodec.serialize_vector_uint8 ⟨[([107], [1])]⟩) none
        = .ok (m', none) ∧
      m'.find [107] = some [] ∧
      (⟨[([107], [1])]⟩ : unordered_map (List Byte) (List Byte)).find [107] = some [1]) ∧
    (∃ m' : unordered_map (List Byte) (List Byte),
      ZenohCodec.deserialize
          (ZenohDeserializer.deserialize_unordered_map ZenohDeserializer.deserialize_string
            ZenohDeserializer.deserialize_string)
          (ZenohCodec.serialize_unordered_map ZenohCodec.serialize_string_view
            ZenohCodec.serialize_string_view ⟨[([97], [120]), ([98], [])]⟩) none
        = .ok (m', none) ∧
      m'.entries = [([97], [120]), ([98], [])]) :=
  ⟨⟨⟨[([107], [])]⟩, rfl, rfl, rfl⟩, ⟨⟨[([97], [120]), ([98], [])]⟩, rfl, rfl⟩⟩

/-- C6 (sequence encoding structure, violated by the code): on the claim's own witness, the
sequence of the byte-sequences `{0x01}`, `{0x02}`, `{0x03}`, four successive calls of
`Iterator::next` on `serialize(v)` yield the sentinel four times and no sub-payload,
because `serialize` of the first element returns the sentinel (the defect of C2); on the
sequence of the strings `"\x01"`, `"\x02"`, `"\x03"` they yield three sub-payloads of size
1 holding `0x01`, `0x02`, `0x03`, then the sentinel. -/
theorem C6_byte_sequences_yield_nothing :
    Bytes.Iterator.nextN 4
        (ZenohCodec.serialize_vector ZenohCodec.serialize_vector_uint8
          ([[1], [2], [3]] : List (List Byte))).iter
      = [Bytes.null, Bytes.null, Bytes.null, Bytes.null] ∧
    Bytes.null.check = false ∧
    Bytes.Iterator.nextN 4
        (ZenohCodec.serialize_vector ZenohCodec.serialize_string_view
          ([[1], [2], [3]] : List (List Byte))).iter
      = [⟨some [1]⟩, ⟨some [2]⟩, ⟨some [3]⟩, Bytes.null] ∧
    ([[1], [2], [3]] : List (List Byte)).map ZenohCodec.serialize_string_view
      = [⟨some [1]⟩, ⟨some [2]⟩, ⟨some [3]⟩] :=
  ⟨rfl, rfl, rfl, rfl⟩

/-- C7, counterexample: decoding the encoding of `{("k", "a"), ("k", "b")}` as a map yields
`{"k" -> "a"}`, the value of the first occurrence, not `"b"`. -/
theorem C7_map_precedence_counterexample :
    ∃ m' : unordered_map (List Byte) (List Byte),
      ZenohCodec.deserialize
          (ZenohDeserializer.deserialize_unordered_map ZenohDeserializer.deserialize_string
            ZenohDeserializer.deserialize_string)
          (ZenohCodec.serialize_vector
            (ZenohCodec.serialize_pair ZenohCodec.serialize_string_view
              ZenohCodec.serialize_string_view)
            ([([107], [97]), ([107], [98])] : List (List Byte × List Byte))) none
        = .ok (m', none) ∧
      m'.find [107] = some [97] ∧ m'.find [107] ≠ some [98] :=
  ⟨⟨[([107], [97])]⟩, rfl, rfl, by decide⟩

/-- C7, amended (map decode precedence): when the encoding of a sequence `kvs` of key-value
pairs (keys and values round-tripping on their own) is decoded as
`std::unordered_map<K,V>`, the value kept for every key is the one of its first occurrence
in `kvs` (first-inserted-wins), and a key that does not occur in `kvs` is absent. -/
theorem C7_map_precedence {K V : Type} [DecidableEq K]
    (codecK : K → Bytes) (codecV : V → Bytes) (deK : Deserializer K) (deV : Deserializer V)
    (kvs : List (K × V))
    (h : ∀ kv ∈ kvs, RoundTrip codecK deK kv.1 ∧ RoundTrip codecV deV kv.2) (err : ErrPtr) :
    ∃ (m' : unordered_map K V) (err' : ErrPtr),
      ZenohCodec.deserialize (ZenohDeserializer.deserialize_unordered_map deK deV)
          (ZenohCodec.serialize_vector (ZenohCodec.serialize_pair codecK codecV) kvs) err
        = .ok (m', err') ∧
      ∀ k : K, m'.find k = (kvs.find? (fun e => decide (e.1 = k))).map Prod.snd := by
  obtain ⟨err', hd, _⟩ := deserialize_unordered_map_of_pairs codecK codecV deK deV kvs h err
  refine ⟨_, err', hd, ?_⟩
  intro k
  rw [find_foldl_insert]
  simp [unordered_map.find]

/-- C7 at the sequence `{("k", "a"), ("k", "b")}`. -/
theorem C7_map_precedence_witness :
    ∃ (m' : unordered_map (List Byte) (List Byte)) (err' : ErrPtr),
      ZenohCodec.deserialize
          (ZenohDeserializer.deserialize_unordered_map ZenohDeserializer.deserialize_string
            ZenohDeserializer.deserialize_string)
          (ZenohCodec.serialize_vector
            (ZenohCodec.serialize_pair ZenohCodec.serialize_string_view
              ZenohCodec.serialize_string_view)
            ([([107], [97]), ([107], [98])] : List (List Byte × List Byte))) none
        = .ok (m', err') ∧
      ∀ k : List Byte, m'.find k =
        (([([107], [97]), ([107], [98])] : List (List Byte × List Byte)).find?
          (fun e => decide (e.1 = k))).map Prod.snd :=
  C7_map_precedence ZenohCodec.serialize_string_view ZenohCodec.serialize_string_view
    ZenohDeserializer.deserialize_string ZenohDeserializer.deserialize_string
    [([107], [97]), ([107], [98])]
    (fun _ _ => ⟨roundTrip_string _, roundTrip_string _⟩) none

/-- C8 (composite decode failure propagation, violated by the code): the payload
`01 05 04 01 6b 01 76` holds two sub-payloads, `05`, which is not a pair encoding, and the
pair encoding of `("k", "v")`.  Decoded as `std::vector<std::pair<std::string,std::string>>`
with `err == nullptr` an exception is thrown, and the first element alone leaves the
failure code in `*err`; but with an out-parameter the whole decode returns two pairs and
leaves `Z_OK` in `*err`: the failure code of the first element is overwritten by the
status of the second. -/
theorem C8_failure_status_overwritten :
    ZenohCodec.deserialize
        (ZenohDeserializer.deserialize_vector
          (ZenohDeserializer.deserialize_pair ZenohDeserializer.deserialize_string
            ZenohDeserializer.deserialize_string))
        ⟨some [1, 5, 4, 1, 107, 1, 118]⟩ none
      = .error ⟨"Failed to deserialize into std::pair", Z_EPARSE⟩ ∧
    ZenohCodec.deserialize
        (ZenohDeserializer.deserialize_pair ZenohDeserializer.deserialize_string
          ZenohDeserializer.deserialize_string)
        ⟨some [5]⟩ (some Z_OK)
      = .ok (([], []), some Z_EPARSE) ∧
    ZenohCodec.deserialize
        (ZenohDeserializer.deserialize_vector
          (ZenohDeserializer.deserialize_pair ZenohDeserializer.deserialize_string
            ZenohDeserializer.deserialize_string))
        ⟨some [1, 5, 4, 1, 107, 1, 118]⟩ (some Z_OK)
      = .ok ([([], []), ([107], [118])], some Z_OK) ∧
    Z_EPARSE ≠ Z_OK :=
  ⟨rfl, rfl, rfl, by decide⟩

/-- C9, counterexample: decoding the encoding of the sequence of strings `{"a", "b"}` as a
plain string returns the raw octets `01 61 01 62` without throwing, and with an
out-parameter holding `Z_OK` it leaves `Z_OK` there. -/
theorem C9_string_shape_counterexample :
    ZenohCodec.deserialize ZenohDeserializer.deserialize_string
        (ZenohCodec.serialize_vector ZenohCodec.serialize_string_view
          ([[97], [98]] : List (List Byte))) none
      = .ok ([1, 97, 1, 98], none) ∧
    ZenohCodec.deserialize ZenohDeserializer.deserialize_string
        (ZenohCodec.serialize_vector ZenohCodec.serialize_string_view
          ([[97], [98]] : List (List Byte))) (some Z_OK)
      = .ok ([1, 97, 1, 98], some Z_OK) :=
  ⟨rfl, rfl⟩

/-- C9, amended (string decode is shape-agnostic): decoding a sequence-encoded payload as a
plain string succeeds in both error modes: `deserialize<std::string>` returns the raw
octets of the payload, throws nothing and leaves `err` as it was. -/
theorem C9_string_shape_agnostic {T : Type} (codec : T → Bytes) (v : List T) (err : ErrPtr) :
    ZenohCodec.deserialize ZenohDeserializer.deserialize_string
        (ZenohCodec.serialize_vector codec v) err
      = .ok ((ZenohCodec.serialize_vector codec v).data, err) := by
  simp [ZenohCodec.deserialize, deserialize_string_eq]

/-- C10 (streaming encode pull count, violated by the code): on the source
`{{0x01}, {0x02}, {0x03}}` of `N = 3` byte vectors the callback of `serialize_from_iter`
dereferences one element and the cursor stops in front of the second, because `serialize`
of the first element returns the sentinel (the defect of C2), which
`z_bytes_encode_from_iter` reads as the end of the source; on the source `{"a", "b", "c"}`
of strings it dereferences the three elements, each once and in forward order, and the
cursor ends at `end`. -/
theorem C10_byte_vector_source_one_pull :
    Bytes.serialize_from_iter_run ([[1], [2], [3]] : List (List Byte))
        ZenohCodec.serialize_vector_uint8
      = some (⟨some []⟩, ⟨[[2], [3]], [[1]]⟩) ∧
    Bytes.serialize_from_iter_run ([[97], [98], [99]] : List (List Byte))
        ZenohCodec.serialize_string_view
      = some (⟨some [1, 97, 1, 98, 1, 99]⟩, ⟨[], [[97], [98], [99]]⟩) :=
  ⟨rfl, rfl⟩

end zenoh
